import Mathlib

/-!
Shallow embedding of the `lfuda-rs` cache (src/policies.rs, src/cache.rs,
src/builder.rs) and proofs about the specification's claims.

Rust `HashMap`s are modelled as association lists written only through
`aupsert`/`aerase`, `HashSet`s as lists written only through set-style
insert/remove, `u64` as `Nat` (no operation here can overflow in practice,
and `u64` division and subtraction are mirrored by `Nat` division and
truncated subtraction at the single place each occurs), `Instant`/`Duration`
as a `Nat` clock value `now` passed to every operation that reads time, and
the `on_eviction` callback as a flag `hasOnEviction` plus a log `evLog` of
the (key, value) pairs the callback was invoked on.  Rust panics
(`unwrap`, division by zero) are modelled by `Option`: `none` means the
operation panics instead of returning.  The two `while` loops of `insert`
run on explicit fuel `elements.length + 1`; every loop iteration removes one
element, so the fuel can only be exhausted in a state where the next
iteration's `unwrap` panics, which `evict` already maps to `none`.
-/

namespace Lfuda

/-- Mirrors `CachePolicy` from src/policies.rs. -/
inductive CachePolicy where
  | LFU
  | LFUDA
  | GDSF
  deriving DecidableEq

/-- Mirrors `Item` from src/cache.rs (times are `Nat` clock values). -/
structure Item (Value : Type) where
  value : Value
  weight : Nat
  hits : Nat
  priority_key : Nat
  creation_time : Option Nat
  ttl : Option Nat
  deriving DecidableEq

/-- Mirrors `calculate_policy` from src/policies.rs.  Rust `u64` division
panics on a zero divisor, so the GDSF case yields `none` when the weight
is zero. -/
def calculate_policy {Value : Type} (policy : CachePolicy) (element : Item Value)
    (cache_age : Nat) : Option Nat :=
  match policy with
  | CachePolicy.LFU => some element.hits
  | CachePolicy.LFUDA => some (element.hits + cache_age)
  | CachePolicy.GDSF =>
      if element.weight = 0 then none
      else some (element.hits / element.weight + cache_age)

section AList

variable {K A : Type} [DecidableEq K]

/-- `HashMap::get` on the association-list model. -/
def alookup (k : K) : List (K × A) → Option A
  | [] => none
  | p :: rest => if p.1 = k then some p.2 else alookup k rest

/-- `HashMap::remove` on the association-list model. -/
def aerase (k : K) : List (K × A) → List (K × A)
  | [] => []
  | p :: rest => if p.1 = k then aerase k rest else p :: aerase k rest

/-- `HashMap::insert` (create or overwrite) on the association-list model. -/
def aupsert (k : K) (a : A) (l : List (K × A)) : List (K × A) :=
  (k, a) :: aerase k l

/-- `HashSet::remove` on the list model. -/
def lremove (k : K) : List K → List K
  | [] => []
  | x :: rest => if x = k then lremove k rest else x :: lremove k rest

/-- `HashSet::insert` on the list model. -/
def linsert (k : K) (l : List K) : List K :=
  if k ∈ l then l else k :: l

end AList

/-- Mirrors `Cache` from src/cache.rs.  `hasOnEviction` records whether an
`on_eviction` callback is configured and `evLog` the invocations made on it. -/
structure Cache (K V : Type) where
  capacity : Option Nat
  max_size : Option Nat
  cur_size : Nat
  elements : List (K × Item V)
  frequencies : List (Nat × List K)
  min_frequency : Nat
  age : Nat
  policy : CachePolicy
  hasOnEviction : Bool
  evLog : List (K × V)
  deriving DecidableEq

/-- Mirrors `CacheBuilder::build` from src/builder.rs. -/
def build {K V : Type} (policy : CachePolicy) (capacity : Option Nat)
    (max_size : Option Nat) (hasEv : Bool) : Cache K V :=
  { capacity := capacity
    max_size := max_size
    cur_size := 0
    elements := []
    frequencies := []
    min_frequency := 0
    age := 0
    policy := policy
    hasOnEviction := hasEv
    evLog := [] }

variable {K V : Type} [DecidableEq K]

/-- Mirrors `Cache::freq_remove_entry` from src/cache.rs. -/
def freq_remove_entry (freqs : List (Nat × List K)) (place : Nat) (k : K) :
    List (Nat × List K) :=
  match alookup place freqs with
  | none => freqs
  | some bucket =>
      let b := lremove k bucket
      if b.isEmpty then aerase place freqs else aupsert place b freqs

/-- The `self.frequencies.entry(p).or_default().insert(key)` step of
`Cache::increment`. -/
def freq_insert_entry (freqs : List (Nat × List K)) (place : Nat) (k : K) :
    List (Nat × List K) :=
  match alookup place freqs with
  | none => aupsert place (linsert k []) freqs
  | some bucket => aupsert place (linsert k bucket) freqs

/-- Expiry test of `Cache::check_ttl`: an item with both a creation time and
a ttl is expired when the elapsed time exceeds the ttl; the `?` operators on
`creation_time` and `ttl` make every other item non-expired. -/
def isExpired (item : Item V) (now : Nat) : Bool :=
  match item.creation_time, item.ttl with
  | some c, some t => now - c > t
  | _, _ => false

/-- Mirrors `Cache::check_ttl` from src/cache.rs: no callback invocation and
no `cur_size` decrement on this path. -/
def check_ttl (s : Cache K V) (k : K) (now : Nat) : Option V × Cache K V :=
  match alookup k s.elements with
  | none => (none, s)
  | some item =>
      if isExpired item now then
        let s1 := { s with frequencies := freq_remove_entry s.frequencies item.priority_key k }
        (some item.value, { s1 with elements := aerase k s1.elements })
      else (none, s)

/-- Mirrors `Cache::remove` from src/cache.rs: callback invocation (when
configured), `cur_size` decrement, bucket removal, entry removal.  The
sequential field mutations of the source are written as one record update;
each right-hand side reads only fields the preceding mutations left
untouched, exactly as in the source. -/
def remove (s : Cache K V) (k : K) : Option V × Cache K V :=
  match alookup k s.elements with
  | none => (none, s)
  | some item =>
      (some item.value,
        { s with
            evLog := if s.hasOnEviction then s.evLog ++ [(k, item.value)] else s.evLog
            cur_size := s.cur_size - item.weight
            frequencies := freq_remove_entry s.frequencies item.priority_key k
            elements := aerase k s.elements })

/-- Mirrors `Cache::evict` from src/cache.rs; the three `unwrap`s become the
three `none` branches. -/
def evict (s : Cache K V) : Option (Cache K V) :=
  match alookup s.min_frequency s.frequencies with
  | none => none
  | some bucket =>
      match bucket.head? with
      | none => none
      | some k =>
          match alookup k s.elements with
          | none => none
          | some item =>
              let s1 := { s with
                age := if s.age < item.priority_key then item.priority_key else s.age }
              some (remove s1 k).2

/-- Mirrors `Cache::increment` from src/cache.rs, including the order of the
bucket-existence test (performed before the key has been removed from its
old bucket), the insertion into the new bucket, and the removal from the old
bucket.  As in the source, the emptiness test and the bucket updates read
the pre-call `frequencies` and `min_frequency`. -/
def increment (s : Cache K V) (k : K) : Option (Cache K V) :=
  match alookup k s.elements with
  | none => none
  | some item =>
      let old_priority := item.priority_key
      let hits1 := item.hits + 1
      match calculate_policy s.policy { item with hits := hits1 } s.age with
      | none => none
      | some newp =>
          let item1 := { item with hits := hits1, priority_key := newp }
          some { s with
              elements := aupsert k item1 s.elements
              min_frequency :=
                if s.min_frequency = old_priority ∧ alookup old_priority s.frequencies = none
                then newp else s.min_frequency
              frequencies :=
                freq_remove_entry (freq_insert_entry s.frequencies newp k) old_priority k }

/-- Mirrors `Cache::contains` from src/cache.rs. -/
def contains (s : Cache K V) (k : K) (now : Nat) : Bool × Cache K V :=
  let s1 := (check_ttl s k now).2
  ((alookup k s1.elements).isSome, s1)

/-- Mirrors `Cache::peek` from src/cache.rs. -/
def peek (s : Cache K V) (k : K) (now : Nat) : Option V × Cache K V :=
  let s1 := (check_ttl s k now).2
  ((alookup k s1.elements).map Item.value, s1)

/-- Mirrors `Cache::peek_mut` from src/cache.rs (identical to `peek` once
mutability is erased). -/
def peek_mut (s : Cache K V) (k : K) (now : Nat) : Option V × Cache K V :=
  let s1 := (check_ttl s k now).2
  ((alookup k s1.elements).map Item.value, s1)

/-- Mirrors `Cache::remove_expired` from src/cache.rs: the keys are collected
first, then each is run through `check_ttl`. -/
def remove_expired (s : Cache K V) (now : Nat) : Cache K V :=
  let keys := s.elements.map Prod.fst
  keys.foldl (fun acc k => (check_ttl acc k now).2) s

/-- Mirrors `Cache::len` from src/cache.rs. -/
def len (s : Cache K V) : Nat :=
  s.elements.length

/-- Mirrors `Cache::size` from src/cache.rs. -/
def size (s : Cache K V) : Nat :=
  s.cur_size

/-- Mirrors `Cache::clear_without_eviction` from src/cache.rs. -/
def clear_without_eviction (s : Cache K V) : Cache K V :=
  { s with elements := [], frequencies := [], cur_size := 0, age := 0 }

/-- Mirrors `Cache::clear_with_eviction` from src/cache.rs: the callback is
invoked once per entry first, then the state is cleared as in
`clear_without_eviction`. -/
def clear_with_eviction (s : Cache K V) : Cache K V :=
  { s with
      evLog :=
        if s.hasOnEviction
        then s.evLog ++ s.elements.map (fun p => (p.1, p.2.value))
        else s.evLog
      elements := [], frequencies := [], cur_size := 0, age := 0 }

/-- Mirrors `Cache::get` from src/cache.rs; `none` is a panic inside
`increment`, `some (none, _)` is a miss. -/
def get (s : Cache K V) (k : K) (now : Nat) : Option (Option V × Cache K V) :=
  let s1 := (check_ttl s k now).2
  match alookup k s1.elements with
  | none => some (none, s1)
  | some _ =>
      match increment s1 k with
      | none => none
      | some s2 => some ((alookup k s2.elements).map Item.value, s2)

/-- Mirrors `Cache::get_mut` from src/cache.rs (identical to `get` once
mutability is erased). -/
def get_mut (s : Cache K V) (k : K) (now : Nat) : Option (Option V × Cache K V) :=
  let s1 := (check_ttl s k now).2
  match alookup k s1.elements with
  | none => some (none, s1)
  | some _ =>
      match increment s1 k with
      | none => none
      | some s2 => some ((alookup k s2.elements).map Item.value, s2)

/-- The `while (cur_size - existing_elem_weight) + weight > max_size` eviction
loop of `Cache::insert`, on fuel. -/
def evictWhileSize (fuel : Nat) (s : Cache K V) (ew w m : Nat) : Option (Cache K V) :=
  match fuel with
  | 0 => if (s.cur_size - ew) + w > m then none else some s
  | fuel1 + 1 =>
      if (s.cur_size - ew) + w > m then
        match evict s with
        | none => none
        | some s1 => evictWhileSize fuel1 s1 ew w m
      else some s

/-- The `while self.len() >= capacity` eviction loop of `Cache::insert`, on
fuel. -/
def evictWhileLen (fuel : Nat) (s : Cache K V) (cap : Nat) : Option (Cache K V) :=
  match fuel with
  | 0 => if s.elements.length ≥ cap then none else some s
  | fuel1 + 1 =>
      if s.elements.length ≥ cap then
        match evict s with
        | none => none
        | some s1 => evictWhileLen fuel1 s1 cap
      else some s

/-- The error message of `Cache::insert`, the Rust
`WeightExceedsCapacity` failure. -/
def weightErr : String :=
  "Weight of the item is bigger than max_size of the cache."

/-- The fresh-key tail of `Cache::insert` (create, add weight, promote). -/
def insertNew (s : Cache K V) (k : K) (v : V) (w : Nat) (ttl : Option Nat) (now : Nat) :
    Option (Cache K V × Option String) :=
  let item : Item V :=
    { value := v, weight := w, hits := 0, priority_key := 0
      creation_time := ttl.map (fun _ => now), ttl := ttl }
  let s1 := { s with elements := aupsert k item s.elements, cur_size := s.cur_size + w }
  match increment s1 k with
  | none => none
  | some s2 => some (s2, none)

/-- `Cache::insert` after the size-cap eviction loop: overwrite an existing
entry or fall through to the capacity check and fresh insert. -/
def insertCont (s : Cache K V) (k : K) (v : V) (w : Nat) (ttl : Option Nat) (now : Nat) :
    Option (Cache K V × Option String) :=
  match alookup k s.elements with
  | some item =>
      let item1 := { item with weight := w, value := v, ttl := ttl
                               creation_time := ttl.map (fun _ => now) }
      let s1 := { s with elements := aupsert k item1 s.elements }
      match increment s1 k with
      | none => none
      | some s2 => some ({ s2 with cur_size := s2.cur_size + w }, none)
  | none =>
      match s.capacity with
      | some cap =>
          match evictWhileLen (s.elements.length + 1) s cap with
          | none => none
          | some s1 => insertNew s1 k v w ttl now
      | none => insertNew s k v w ttl now

/-- Mirrors `Cache::insert` from src/cache.rs.  `some (s, some msg)` is the
`Err` return (state unchanged), `some (s, none)` is `Ok`, `none` is a panic
(in a loop `unwrap` or in the promotion). -/
def insert (s : Cache K V) (k : K) (v : V) (w : Nat) (ttl : Option Nat) (now : Nat) :
    Option (Cache K V × Option String) :=
  match s.max_size with
  | some m =>
      if w > m then some (s, some weightErr)
      else
        let ew := ((alookup k s.elements).map Item.weight).getD 0
        match evictWhileSize (s.elements.length + 1) s ew w m with
        | none => none
        | some s1 => insertCont s1 k v w ttl now
  | none => insertCont s k v w ttl now

/-- Sum of the weights currently stored in the entry table. -/
def sumWeights (s : Cache K V) : Nat :=
  (s.elements.map (fun p => p.2.weight)).sum

/-- Key membership in the bucket with the given score, on a raw bucket map. -/
def inFreqs (freqs : List (Nat × List K)) (score : Nat) (k : K) : Bool :=
  match alookup score freqs with
  | none => false
  | some b => decide (k ∈ b)

/-- Key membership in the bucket with the given score. -/
def keyInBucket (s : Cache K V) (score : Nat) (k : K) : Bool :=
  inFreqs s.frequencies score k

/-- A sequence of `insert` calls, failing as soon as one of them panics. -/
def runInserts (s : Cache K V) : List (K × V × Nat × Option Nat × Nat) → Option (Cache K V)
  | [] => some s
  | (k, v, w, ttl, now) :: rest =>
      match insert s k v w ttl now with
      | none => none
      | some (s1, _) => runInserts s1 rest

/-! Concrete scenario states used by the claim theorems below.  Each state is
obtained by running the embedded operations; the claim theorems re-assert the
defining equations, so the fallback branches are provably dead. -/

/-- Freshly built unbounded LFU cache. -/
def emptyLFU : Cache Nat Nat := build CachePolicy.LFU none none false

/-- `emptyLFU` after `insert(0, 0, weight 1, no ttl)`. -/
def oneEntryLFU : Cache Nat Nat :=
  match insert emptyLFU 0 0 1 none 0 with
  | some (s, _) => s
  | none => emptyLFU

/-- `oneEntryLFU` after a second `insert(0, 7, weight 1)` overwriting key 0. -/
def c1_s2 : Cache Nat Nat :=
  match insert oneEntryLFU 0 7 1 none 0 with
  | some (s, _) => s
  | none => oneEntryLFU

/-- `oneEntryLFU` after `get(0)`. -/
def c2_s2 : Cache Nat Nat :=
  match get oneEntryLFU 0 0 with
  | some (_, s) => s
  | none => oneEntryLFU

/-- Freshly built unbounded GDSF cache. -/
def emptyGDSF : Cache Nat Nat := build CachePolicy.GDSF none none false

/-- `emptyGDSF` after `insert(0, 0, weight 2, no ttl)`. -/
def c3_s1 : Cache Nat Nat :=
  match insert emptyGDSF 0 0 2 none 0 with
  | some (s, _) => s
  | none => emptyGDSF

/-- Freshly built LFU cache with `max_size = 10`. -/
def emptyBounded : Cache Nat Nat := build CachePolicy.LFU none (some 10) false

/-- `emptyBounded` after `insert(0, 0, weight 10)`. -/
def c4_s1 : Cache Nat Nat :=
  match insert emptyBounded 0 0 10 none 0 with
  | some (s, _) => s
  | none => emptyBounded

/-- `c4_s1` after a second `insert(0, 1, weight 10)` overwriting key 0. -/
def c4_s2 : Cache Nat Nat :=
  match insert c4_s1 0 1 10 none 0 with
  | some (s, _) => s
  | none => c4_s1

/-- Freshly built unbounded LFU cache with an eviction callback. -/
def emptyCb : Cache Nat Nat := build CachePolicy.LFU none none true

/-- `emptyCb` after `insert(0, 5, weight 3, ttl 1)` at time 0. -/
def c5_s1 : Cache Nat Nat :=
  match insert emptyCb 0 5 3 (some 1) 0 with
  | some (s, _) => s
  | none => emptyCb

/-- `emptyLFU` after `insert(0, 5, weight 3, ttl 1)` at time 0. -/
def c6_s1 : Cache Nat Nat :=
  match insert emptyLFU 0 5 3 (some 1) 0 with
  | some (s, _) => s
  | none => emptyLFU

/-- Two inserts of distinct keys, exercising the capacity eviction loop on a
capacity-1 cache. -/
def c7_ops : List (Nat × Nat × Nat × Option Nat × Nat) :=
  [(0, 0, 1, none, 0), (1, 1, 1, none, 0)]

/-- Result of running `c7_ops` on a freshly built capacity-1 LFU cache. -/
def c7_res : Cache Nat Nat :=
  match runInserts (build CachePolicy.LFU (some 1) none false) c7_ops with
  | some s => s
  | none => build CachePolicy.LFU (some 1) none false

section AListLemmas

variable {K A : Type} [DecidableEq K]

theorem alookup_aerase_self (k : K) (l : List (K × A)) :
    alookup k (aerase k l) = none := by
  induction l with
  | nil => rfl
  | cons p rest ih =>
      by_cases hp : p.1 = k
      · simpa [aerase, hp] using ih
      · simp [aerase, alookup, hp, ih]

theorem alookup_aerase_ne {k k' : K} (h : k' ≠ k) (l : List (K × A)) :
    alookup k' (aerase k l) = alookup k' l := by
  have hk : k ≠ k' := fun e => h e.symm
  induction l with
  | nil => rfl
  | cons p rest ih =>
      by_cases hp : p.1 = k
      · simp [aerase, alookup, hp, hk, ih]
      · by_cases hp' : p.1 = k'
        · simp [aerase, alookup, hp, hp', h]
        · simp [aerase, alookup, hp, hp', ih]

theorem alookup_aupsert_self (k : K) (a : A) (l : List (K × A)) :
    alookup k (aupsert k a l) = some a := by
  simp [aupsert, alookup]

theorem alookup_aupsert_ne {k k' : K} (h : k' ≠ k) (a : A) (l : List (K × A)) :
    alookup k' (aupsert k a l) = alookup k' l := by
  have hk : k ≠ k' := fun e => h e.symm
  simp [aupsert, alookup, hk, alookup_aerase_ne h]

theorem aerase_length_le (k : K) (l : List (K × A)) :
    (aerase k l).length ≤ l.length := by
  induction l with
  | nil => simp [aerase]
  | cons p rest ih =>
      by_cases hp : p.1 = k <;> simp [aerase, hp] <;> omega

theorem aerase_length_lt {k : K} {l : List (K × A)} (h : alookup k l ≠ none) :
    (aerase k l).length < l.length := by
  induction l with
  | nil => simp [alookup] at h
  | cons p rest ih =>
      by_cases hp : p.1 = k
      · have := aerase_length_le k rest
        simp only [aerase, hp, if_pos, List.length_cons]
        omega
      · simp only [alookup, hp, if_neg, not_false_iff] at h
        have := ih h
        simp only [aerase, hp, if_neg, not_false_iff, List.length_cons]
        omega

theorem mem_keys_of_alookup {k : K} {l : List (K × A)} {a : A}
    (h : alookup k l = some a) : k ∈ l.map Prod.fst := by
  induction l with
  | nil => simp [alookup] at h
  | cons p rest ih =>
      by_cases hp : p.1 = k
      · simp [hp]
      · simp only [alookup, hp, if_neg, not_false_iff] at h
        simp [ih h]

theorem mem_lremove {x k : K} (h : x ≠ k) (l : List K) :
    x ∈ lremove k l ↔ x ∈ l := by
  induction l with
  | nil => simp [lremove]
  | cons y rest ih =>
      by_cases hy : y = k
      · subst hy
        simp [lremove, ih, h]
      · simp [lremove, hy, ih]

theorem not_mem_lremove (k : K) (l : List K) : k ∉ lremove k l := by
  induction l with
  | nil => simp [lremove]
  | cons y rest ih =>
      by_cases hy : y = k
      · simpa [lremove, hy] using ih
      · simp [lremove, hy, ih]
        exact fun e => hy e.symm

theorem eq_of_lremove_isEmpty {k : K} {l : List K}
    (h : (lremove k l).isEmpty = true) {x : K} (hx : x ∈ l) : x = k := by
  induction l with
  | nil => simp at hx
  | cons y rest ih =>
      by_cases hy : y = k
      · subst hy
        simp only [lremove, if_pos] at h
        rcases List.mem_cons.mp hx with rfl | hr
        · rfl
        · exact ih h hr
      · simp [lremove, hy, List.isEmpty] at h

end AListLemmas

section FreqLemmas

variable {K V : Type} [DecidableEq K]

theorem inFreqs_freq_remove_ne {k k' : K} (h : k' ≠ k)
    (f : List (Nat × List K)) (pl q : Nat) :
    inFreqs (freq_remove_entry f pl k) q k' = inFreqs f q k' := by
  unfold freq_remove_entry
  cases hm : alookup pl f with
  | none => rfl
  | some b =>
      by_cases hemp : (lremove k b).isEmpty = true
      · simp only [hemp, if_pos]
        by_cases hq : q = pl
        · subst hq
          have hnb : k' ∉ b := fun hkb => h (eq_of_lremove_isEmpty hemp hkb)
          simp [inFreqs, alookup_aerase_self, hm, hnb]
        · simp [inFreqs, alookup_aerase_ne hq]
      · simp only [hemp, if_neg, not_false_iff, Bool.not_eq_true]
        by_cases hq : q = pl
        · subst hq
          simp [inFreqs, alookup_aupsert_self, hm, mem_lremove h]
        · simp [inFreqs, alookup_aupsert_ne hq]

theorem inFreqs_freq_remove_self (f : List (Nat × List K)) (pl : Nat) (k : K) :
    inFreqs (freq_remove_entry f pl k) pl k = false := by
  unfold freq_remove_entry
  cases hm : alookup pl f with
  | none => simp [inFreqs, hm]
  | some b =>
      by_cases hemp : (lremove k b).isEmpty = true
      · simp [hemp, inFreqs, alookup_aerase_self]
      · simp [hemp, inFreqs, alookup_aupsert_self, not_mem_lremove]

theorem inFreqs_freq_remove_other {q pl : Nat} (h : q ≠ pl)
    (f : List (Nat × List K)) (k : K) :
    inFreqs (freq_remove_entry f pl k) q k = inFreqs f q k := by
  unfold freq_remove_entry
  cases hm : alookup pl f with
  | none => rfl
  | some b =>
      by_cases hemp : (lremove k b).isEmpty = true
      · simp [hemp, inFreqs, alookup_aerase_ne h]
      · simp [hemp, inFreqs, alookup_aupsert_ne h]

end FreqLemmas

section TtlLemmas

variable {K V : Type} [DecidableEq K]

theorem check_ttl_of_none {s : Cache K V} {k : K} {now : Nat}
    (h : alookup k s.elements = none) : check_ttl s k now = (none, s) := by
  simp [check_ttl, h]

theorem check_ttl_not_expired {s : Cache K V} {k : K} {item : Item V} {now : Nat}
    (h : alookup k s.elements = some item) (hx : isExpired item now = false) :
    check_ttl s k now = (none, s) := by
  simp [check_ttl, h, hx]

theorem check_ttl_expired {s : Cache K V} {k : K} {item : Item V} {now : Nat}
    (h : alookup k s.elements = some item) (hx : isExpired item now = true) :
    check_ttl s k now = (some item.value,
      { s with
          frequencies := freq_remove_entry s.frequencies item.priority_key k
          elements := aerase k s.elements }) := by
  simp [check_ttl, h, hx]

theorem check_ttl_elements_sub {s : Cache K V} {k k' : K} {now : Nat} {it' : Item V}
    (h : alookup k' (check_ttl s k now).2.elements = some it') :
    alookup k' s.elements = some it' := by
  cases he : alookup k s.elements with
  | none => rwa [check_ttl_of_none he] at h
  | some item =>
      cases hx : isExpired item now with
      | false => rwa [check_ttl_not_expired he hx] at h
      | true =>
          rw [check_ttl_expired he hx] at h
          by_cases hk : k' = k
          · subst hk
            rw [show ({ s with
                frequencies := freq_remove_entry s.frequencies item.priority_key k'
                elements := aerase k' s.elements } : Cache K V).elements
                = aerase k' s.elements from rfl, alookup_aerase_self] at h
            cases h
          · rwa [show ({ s with
                frequencies := freq_remove_entry s.frequencies item.priority_key k
                elements := aerase k s.elements } : Cache K V).elements
                = aerase k s.elements from rfl, alookup_aerase_ne hk] at h

theorem check_ttl_self_not_expired {s : Cache K V} {k : K} {now : Nat} {it' : Item V}
    (h : alookup k (check_ttl s k now).2.elements = some it') :
    isExpired it' now = false := by
  cases he : alookup k s.elements with
  | none =>
      rw [check_ttl_of_none he] at h
      rw [he] at h
      cases h
  | some item =>
      cases hx : isExpired item now with
      | false =>
          rw [check_ttl_not_expired he hx] at h
          rw [he] at h
          cases h
          exact hx
      | true =>
          rw [check_ttl_expired he hx] at h
          rw [show ({ s with
              frequencies := freq_remove_entry s.frequencies item.priority_key k
              elements := aerase k s.elements } : Cache K V).elements
              = aerase k s.elements from rfl, alookup_aerase_self] at h
          cases h

theorem foldl_check_ttl_spec (now : Nat) :
    ∀ (L : List K) (s : Cache K V) (k' : K) (it' : Item V),
      alookup k' ((L.foldl (fun acc k => (check_ttl acc k now).2) s)).elements = some it' →
      alookup k' s.elements = some it' ∧ (k' ∈ L → isExpired it' now = false) := by
  intro L
  induction L with
  | nil =>
      intro s k' it' h
      exact ⟨h, by simp⟩
  | cons k L ih =>
      intro s k' it' h
      rw [List.foldl_cons] at h
      obtain ⟨h1, h2⟩ := ih _ k' it' h
      refine ⟨check_ttl_elements_sub h1, ?_⟩
      intro hmem
      rcases List.mem_cons.mp hmem with rfl | hL
      · exact check_ttl_self_not_expired h1
      · exact h2 hL

end TtlLemmas

section IncLemmas

variable {K V : Type} [DecidableEq K]

theorem increment_of_calc {s : Cache K V} {k : K} {item : Item V} {p : Nat}
    (h : alookup k s.elements = some item)
    (hc : calculate_policy s.policy { item with hits := item.hits + 1 } s.age = some p) :
    increment s k = some { s with
        elements := aupsert k { item with hits := item.hits + 1, priority_key := p } s.elements
        min_frequency :=
          if s.min_frequency = item.priority_key ∧
             alookup item.priority_key s.frequencies = none
          then p else s.min_frequency
        frequencies :=
          freq_remove_entry (freq_insert_entry s.frequencies p k) item.priority_key k } := by
  simp [increment, h, hc]

theorem get_hit {s : Cache K V} {k : K} {now : Nat} {item : Item V} {p : Nat}
    (h : alookup k s.elements = some item)
    (hx : isExpired item now = false)
    (hc : calculate_policy s.policy { item with hits := item.hits + 1 } s.age = some p) :
    get s k now = some (some item.value,
      { s with
          elements := aupsert k { item with hits := item.hits + 1, priority_key := p } s.elements
          min_frequency :=
            if s.min_frequency = item.priority_key ∧
               alookup item.priority_key s.frequencies = none
            then p else s.min_frequency
          frequencies :=
            freq_remove_entry (freq_insert_entry s.frequencies p k) item.priority_key k }) := by
  have hct : (check_ttl s k now).2 = s := by rw [check_ttl_not_expired h hx]
  unfold get
  rw [hct]
  simp only [h, increment_of_calc h hc]
  simp [alookup_aupsert_self]

theorem get_miss_of_expired {s : Cache K V} {k : K} {item : Item V} {now : Nat}
    (h : alookup k s.elements = some item) (hx : isExpired item now = true) :
    get s k now = some (none,
      { s with
          frequencies := freq_remove_entry s.frequencies item.priority_key k
          elements := aerase k s.elements }) := by
  unfold get
  rw [check_ttl_expired h hx]
  have : alookup k (aerase k s.elements) = none := alookup_aerase_self k s.elements
  simp [this]

end IncLemmas

section LenLemmas

variable {K V : Type} [DecidableEq K]

theorem aupsert_length_le (k : K) {A : Type} (a : A) (l : List (K × A)) :
    (aupsert k a l).length ≤ l.length + 1 := by
  have := aerase_length_le k l
  simp only [aupsert, List.length_cons]
  omega

theorem aupsert_length_le_of_mem {k : K} {A : Type} {l : List (K × A)}
    (h : alookup k l ≠ none) (a : A) : (aupsert k a l).length ≤ l.length := by
  have := aerase_length_lt h
  simp only [aupsert, List.length_cons]
  omega

theorem remove_spec {s : Cache K V} {k : K} {item : Item V}
    (h : alookup k s.elements = some item) :
    (remove s k).2.elements.length < s.elements.length ∧
    (remove s k).2.capacity = s.capacity := by
  have he : (remove s k).2.elements = aerase k s.elements := by simp [remove, h]
  have hc : (remove s k).2.capacity = s.capacity := by simp [remove, h]
  rw [he, hc]
  exact ⟨aerase_length_lt (by simp [h]), rfl⟩

theorem evict_spec {s s' : Cache K V} (h : evict s = some s') :
    s'.elements.length < s.elements.length ∧ s'.capacity = s.capacity := by
  unfold evict at h
  dsimp only at h
  split at h
  · cases h
  · split at h
    · cases h
    · split at h
      · cases h
      · cases h
        rename_i item he
        exact remove_spec (s := { s with
          age := if s.age < item.priority_key then item.priority_key else s.age }) he

theorem increment_spec {s s' : Cache K V} {k : K} (h : increment s k = some s') :
    s'.elements.length ≤ s.elements.length ∧ s'.capacity = s.capacity := by
  unfold increment at h
  dsimp only at h
  split at h
  · cases h
  · split at h
    · cases h
    · cases h
      rename_i x1 item he x2 newp hc
      exact ⟨aupsert_length_le_of_mem (by simp [he]) _, rfl⟩

theorem evictWhileLen_spec :
    ∀ (fuel : Nat) {s s' : Cache K V} {cap : Nat},
      evictWhileLen fuel s cap = some s' →
      s'.elements.length < cap ∧ s'.capacity = s.capacity := by
  intro fuel
  induction fuel with
  | zero =>
      intro s s' cap h
      unfold evictWhileLen at h
      split at h
      · cases h
      · cases h
        rename_i hcond
        exact ⟨by omega, rfl⟩
  | succ f ih =>
      intro s s' cap h
      unfold evictWhileLen at h
      split at h
      · split at h
        · cases h
        · rename_i heq
          obtain ⟨h1, h2⟩ := ih h
          exact ⟨h1, h2.trans (evict_spec heq).2⟩
      · cases h
        rename_i hcond
        exact ⟨by omega, rfl⟩

theorem evictWhileSize_spec :
    ∀ (fuel : Nat) {s s' : Cache K V} {ew w m : Nat},
      evictWhileSize fuel s ew w m = some s' →
      s'.elements.length ≤ s.elements.length ∧ s'.capacity = s.capacity := by
  intro fuel
  induction fuel with
  | zero =>
      intro s s' ew w m h
      unfold evictWhileSize at h
      split at h
      · cases h
      · cases h
        exact ⟨le_refl _, rfl⟩
  | succ f ih =>
      intro s s' ew w m h
      unfold evictWhileSize at h
      split at h
      · split at h
        · cases h
        · rename_i heq
          obtain ⟨h1, h2⟩ := ih h
          have he := evict_spec heq
          exact ⟨h1.trans (le_of_lt he.1), h2.trans he.2⟩
      · cases h
        exact ⟨le_refl _, rfl⟩

theorem insertNew_spec {s s' : Cache K V} {k : K} {v : V} {w : Nat}
    {ttl : Option Nat} {now : Nat} {msg : Option String}
    (h : insertNew s k v w ttl now = some (s', msg)) :
    s'.elements.length ≤ s.elements.length + 1 ∧ s'.capacity = s.capacity := by
  unfold insertNew at h
  dsimp only at h
  split at h
  · cases h
  · cases h
    rename_i s2 heq
    have hi := increment_spec heq
    exact ⟨hi.1.trans (aupsert_length_le k _ s.elements), hi.2⟩

theorem insertCont_spec {s s' : Cache K V} {k : K} {v : V} {w : Nat}
    {ttl : Option Nat} {now : Nat} {msg : Option String} {N : Nat}
    (hcap : s.capacity = some N) (hlen : s.elements.length ≤ N)
    (h : insertCont s k v w ttl now = some (s', msg)) :
    s'.elements.length ≤ N ∧ s'.capacity = some N := by
  unfold insertCont at h
  dsimp only at h
  split at h
  · rename_i item he
    split at h
    · cases h
    · cases h
      rename_i s2 heq
      have hi := increment_spec heq
      refine ⟨le_trans hi.1 (le_trans (aupsert_length_le_of_mem (by simp [he]) _) hlen), ?_⟩
      rw [show ({ s2 with cur_size := s2.cur_size + w } : Cache K V).capacity
        = s2.capacity from rfl, hi.2, hcap]
  · rw [hcap] at h
    dsimp only at h
    split at h
    · cases h
    · rename_i s1 heq
      have hw := evictWhileLen_spec _ heq
      have hn := insertNew_spec h
      refine ⟨by omega, hn.2.trans (hw.2.trans hcap)⟩

theorem insert_spec {s s' : Cache K V} {k : K} {v : V} {w : Nat}
    {ttl : Option Nat} {now : Nat} {msg : Option String} {N : Nat}
    (hcap : s.capacity = some N) (hlen : s.elements.length ≤ N)
    (h : insert s k v w ttl now = some (s', msg)) :
    s'.elements.length ≤ N ∧ s'.capacity = some N := by
  unfold insert at h
  dsimp only at h
  split at h
  · split at h
    · cases h
      exact ⟨hlen, hcap⟩
    · split at h
      · cases h
      · rename_i s1 heq
        have hs := evictWhileSize_spec _ heq
        exact insertCont_spec (hs.2.trans hcap) (hs.1.trans hlen) h
  · exact insertCont_spec hcap hlen h

theorem runInserts_le {N : Nat} :
    ∀ (ops : List (K × V × Nat × Option Nat × Nat)) (s s' : Cache K V),
      s.capacity = some N → s.elements.length ≤ N →
      runInserts s ops = some s' → s'.elements.length ≤ N := by
  intro ops
  induction ops with
  | nil =>
      intro s s' h1 h2 h3
      cases h3
      exact h2
  | cons op rest ih =>
      intro s s' h1 h2 h3
      obtain ⟨k, v, w, ttl, now⟩ := op
      unfold runInserts at h3
      split at h3
      · cases h3
      · rename_i s1 msg heq
        obtain ⟨hl, hc⟩ := insert_spec h1 h2 heq
        exact ih s1 s' hc hl h3

end LenLemmas

/-- Claim C1 (code_bug evidence).  The spec's size-accounting invariant says
`cur_size` always equals the sum of the stored weights, in particular after
an insert that overwrites an existing key.  Overwriting key 0 (weight 1) with
a new weight-1 value leaves one weight-1 entry in the table but `cur_size = 2`:
`Cache::insert` adds the new weight without subtracting the overwritten one. -/
theorem C1_size_accounting_violated :
    insert emptyLFU 0 0 1 none 0 = some (oneEntryLFU, none) ∧
    insert oneEntryLFU 0 7 1 none 0 = some (c1_s2, none) ∧
    c1_s2.cur_size = 2 ∧ sumWeights c1_s2 = 1 := by
  decide

/-- Claim C2 (code_bug evidence).  The spec's minimum-correctness invariant
says the bucket at `min_frequency` is non-empty whenever the cache is
non-empty.  After inserting key 0 and then promoting it once with `get`,
the cache is non-empty, `min_frequency` is still 1, but no bucket with score
1 exists: `Cache::increment` tests bucket emptiness before removing the key
from its old bucket, so the stale minimum is never advanced. -/
theorem C2_min_correctness_violated :
    get oneEntryLFU 0 0 = some (some 0, c2_s2) ∧
    c2_s2.elements.length = 1 ∧
    c2_s2.min_frequency = 1 ∧
    alookup 1 c2_s2.frequencies = none := by
  decide

/-- Claim C3 (code_bug evidence).  The spec's bucket-consistency invariant
says every stored key lies in exactly one bucket, in particular after a
promotion whose recomputed score equals the old score.  Under GDSF a fresh
insert of weight 2 promotes from score 0 to score 0; `Cache::increment`
inserts the key into the "new" bucket and then removes it from the "old"
bucket, which is the same bucket, leaving the key in no bucket at all. -/
theorem C3_bucket_consistency_violated :
    insert emptyGDSF 0 0 2 none 0 = some (c3_s1, none) ∧
    (alookup 0 c3_s1.elements).isSome = true ∧
    c3_s1.frequencies = [] := by
  decide

/-- Claim C4 (code_bug evidence).  The spec's size-bound law says that with
`max_size = 10` every successful insert sequence keeps `cur_size ≤ 10`.
Two successful inserts of weight 10 under the same key leave
`cur_size = 20`: the overwrite path never subtracts the replaced weight. -/
theorem C4_size_bound_violated :
    insert emptyBounded 0 0 10 none 0 = some (c4_s1, none) ∧
    insert c4_s1 0 1 10 none 0 = some (c4_s2, none) ∧
    c4_s2.max_size = some 10 ∧
    c4_s2.cur_size = 20 := by
  decide

/-- Claim C5 counterexample.  The claim says `remove_expired` removes each
expired entry through the same path as `remove`, invoking the eviction
callback and decrementing `cur_size`.  On a cache holding one expired entry
(key 0, value 5, weight 3, ttl 1, checked at time 5) with a callback
configured, `remove_expired` deletes the entry but logs no callback call and
leaves `cur_size = 3`, while `remove` on the same state logs the call and
sets `cur_size = 0`. -/
theorem C5_counterexample :
    insert emptyCb 0 5 3 (some 1) 0 = some (c5_s1, none) ∧
    c5_s1.hasOnEviction = true ∧
    (remove_expired c5_s1 5).elements = [] ∧
    (remove_expired c5_s1 5).evLog = [] ∧
    (remove_expired c5_s1 5).cur_size = 3 ∧
    (remove c5_s1 0).2.evLog = [(0, 5)] ∧
    (remove c5_s1 0).2.cur_size = 0 := by
  decide

/-- Claim C5 (amended).  `remove_expired` sweeps every live key once,
forcing the lazy TTL check for each (so no entry that is expired at the
sweep time survives it); each expired entry is removed by the lazy-expiry
path of `check_ttl`, which deletes it from the entry table and its
frequency bucket but, unlike `remove`, invokes no eviction callback and
leaves the running size total unchanged. -/
theorem C5_remove_expired_semantics :
    ∀ (s : Cache Nat Nat) (now : Nat),
      (∀ (k : Nat) (it' : Item Nat),
         alookup k (remove_expired s now).elements = some it' →
         isExpired it' now = false) ∧
      (∀ (k : Nat) (item : Item Nat) (c t : Nat),
         alookup k s.elements = some item →
         item.creation_time = some c →
         item.ttl = some t →
         now - c > t →
           alookup k (check_ttl s k now).2.elements = none ∧
           keyInBucket (check_ttl s k now).2 item.priority_key k = false ∧
           (check_ttl s k now).2.evLog = s.evLog ∧
           (check_ttl s k now).2.cur_size = s.cur_size ∧
           (s.hasOnEviction = true →
              (remove s k).2.evLog = s.evLog ++ [(k, item.value)]) ∧
           (remove s k).2.cur_size = s.cur_size - item.weight) := by
  intro s now
  constructor
  · intro k it' h
    unfold remove_expired at h
    obtain ⟨h1, h2⟩ := foldl_check_ttl_spec now (s.elements.map Prod.fst) s k it' h
    exact h2 (mem_keys_of_alookup h1)
  · intro k item c t hl hc ht hgt
    have hx : isExpired item now = true := by
      simp [isExpired, hc, ht, hgt]
    rw [check_ttl_expired hl hx]
    refine ⟨?_, ?_, rfl, rfl, ?_, ?_⟩
    · exact alookup_aerase_self k s.elements
    · exact inFreqs_freq_remove_self s.frequencies item.priority_key k
    · intro hev
      simp [remove, hl, hev]
    · simp [remove, hl]

/-- Witness for `C5_remove_expired_semantics` on the concrete expired-entry
state `c5_s1` at time 5. -/
theorem C5_witness :
    alookup 0 (check_ttl c5_s1 0 5).2.elements = none ∧
    keyInBucket (check_ttl c5_s1 0 5).2 1 0 = false ∧
    (check_ttl c5_s1 0 5).2.evLog = c5_s1.evLog ∧
    (check_ttl c5_s1 0 5).2.cur_size = c5_s1.cur_size ∧
    (c5_s1.hasOnEviction = true →
       (remove c5_s1 0).2.evLog = c5_s1.evLog ++ [(0, 5)]) ∧
    (remove c5_s1 0).2.cur_size = c5_s1.cur_size - 3 :=
  (C5_remove_expired_semantics c5_s1 5).2 0
    ⟨5, 3, 1, 1, some 0, some 1⟩ 0 1 (by decide) (by decide) (by decide) (by decide)

/-- Claim C6 counterexample.  The claim says that on the first access after
the ttl has elapsed the entry is removed from the entry table, the bucket
index and the running size total.  For an entry of weight 3 with ttl 1
inserted at time 0, `contains` at time 2 reports it absent and empties the
table and buckets, but `cur_size` stays 3: `Cache::check_ttl` never touches
`cur_size`. -/
theorem C6_counterexample :
    insert emptyLFU 0 5 3 (some 1) 0 = some (c6_s1, none) ∧
    (contains c6_s1 0 1).1 = true ∧
    (contains c6_s1 0 2).1 = false ∧
    (contains c6_s1 0 2).2.elements = [] ∧
    (contains c6_s1 0 2).2.frequencies = [] ∧
    (contains c6_s1 0 2).2.cur_size = 3 := by
  decide

/-- Claim C6 (amended).  An entry inserted with creation time `c` and ttl `t`
is observably present via `contains`/`peek`/`get` while the elapsed time does
not exceed `t`, and on the first access attempted after `t` has elapsed it is
reported absent and removed from the entry table and from the frequency
bucket index — but the running size total is left unchanged rather than
decremented. -/
theorem C6_ttl_law :
    ∀ (s : Cache Nat Nat) (k now : Nat) (item : Item Nat) (c t : Nat),
      alookup k s.elements = some item →
      item.creation_time = some c →
      item.ttl = some t →
      (∀ q, keyInBucket s q k = true → q = item.priority_key) →
      ((now - c ≤ t →
          (contains s k now).1 = true ∧
          (contains s k now).2 = s ∧
          (peek s k now).1 = some item.value ∧
          (∀ p, calculate_policy s.policy { item with hits := item.hits + 1 } s.age = some p →
             (get s k now).map Prod.fst = some (some item.value))) ∧
       (now - c > t →
          (contains s k now).1 = false ∧
          (peek s k now).1 = none ∧
          (get s k now).map Prod.fst = some none ∧
          alookup k (contains s k now).2.elements = none ∧
          (∀ q, keyInBucket (contains s k now).2 q k = false) ∧
          (contains s k now).2.cur_size = s.cur_size)) := by
  intro s k now item c t hl hc ht hOnly
  constructor
  · intro hle
    have hx : isExpired item now = false := by
      simp [isExpired, hc, ht]
      omega
    have hct : check_ttl s k now = (none, s) := check_ttl_not_expired hl hx
    refine ⟨?_, ?_, ?_, ?_⟩
    · simp [contains, hct, hl]
    · simp [contains, hct]
    · simp [peek, hct, hl]
    · intro p hp
      rw [get_hit hl hx hp]
      rfl
  · intro hgt
    have hx : isExpired item now = true := by
      simp [isExpired, hc, ht]
      omega
    have hct := check_ttl_expired hl hx
    refine ⟨?_, ?_, ?_, ?_, ?_, ?_⟩
    · simp [contains, hct, alookup_aerase_self]
    · simp [peek, hct, alookup_aerase_self]
    · rw [get_miss_of_expired hl hx]
      rfl
    · simp [contains, hct, alookup_aerase_self]
    · intro q
      have hshape : keyInBucket (contains s k now).2 q k
          = inFreqs (freq_remove_entry s.frequencies item.priority_key k) q k := by
        simp [contains, hct, keyInBucket]
      rw [hshape]
      by_cases hq : q = item.priority_key
      · subst hq
        exact inFreqs_freq_remove_self s.frequencies item.priority_key k
      · rw [inFreqs_freq_remove_other hq]
        cases hb : inFreqs s.frequencies q k with
        | false => rfl
        | true => exact absurd (hOnly q hb) hq
    · simp [contains, hct]

/-- Witness for `C6_ttl_law` on the concrete ttl-1 entry of `c6_s1`, accessed
at times 1 (still live) and 2 (expired). -/
theorem C6_witness :
    (contains c6_s1 0 1).1 = true ∧
    (contains c6_s1 0 2).1 = false ∧
    (peek c6_s1 0 2).1 = none ∧
    (get c6_s1 0 2).map Prod.fst = some none ∧
    alookup 0 (contains c6_s1 0 2).2.elements = none ∧
    keyInBucket (contains c6_s1 0 2).2 1 0 = false ∧
    (contains c6_s1 0 2).2.cur_size = c6_s1.cur_size := by
  have hb : ∀ q, keyInBucket c6_s1 q 0 = true → q = 1 := by
    intro q hq
    by_cases h1 : (1 : Nat) = q
    · exact h1.symm
    · have hf : c6_s1.frequencies = [(1, [0])] := by decide
      simp [keyInBucket, inFreqs, hf, alookup, h1] at hq
  have h1 := C6_ttl_law c6_s1 0 1 ⟨5, 3, 1, 1, some 0, some 1⟩ 0 1
    (by decide) (by decide) (by decide) hb
  have h2 := C6_ttl_law c6_s1 0 2 ⟨5, 3, 1, 1, some 0, some 1⟩ 0 1
    (by decide) (by decide) (by decide) hb
  have hlive := h1.1 (by decide)
  have hdead := h2.2 (by decide)
  exact ⟨hlive.1, hdead.1, hdead.2.1, hdead.2.2.1, hdead.2.2.2.1,
    hdead.2.2.2.2.1 1, hdead.2.2.2.2.2⟩

/-- Claim C8 counterexample.  The claim says the priority calculator is total
with the division defined for every input including weight zero; under GDSF
a zero-weight item has no defined score (the Rust `u64` division panics). -/
theorem C8_counterexample :
    ¬ ∀ (item : Item Nat) (cache_age : Nat),
        (calculate_policy CachePolicy.GDSF item cache_age).isSome = true :=
  fun h => absurd (h ⟨0, 0, 0, 0, none, none⟩ 0) (by decide)

/-- Claim C8 (amended).  The priority calculator is pure and, except for the
GDSF policy on a zero-weight item, total: it returns the hit count for LFU,
hit count plus cache age for LFUDA, and hit count integer-divided by weight
plus cache age for GDSF whenever the weight is non-zero; on a zero-weight
item the GDSF division has no result (a division-by-zero panic in the code). -/
theorem C8_policy_total_except_zero_weight :
    ∀ (item : Item Nat) (cache_age : Nat),
      calculate_policy CachePolicy.LFU item cache_age = some item.hits ∧
      calculate_policy CachePolicy.LFUDA item cache_age = some (item.hits + cache_age) ∧
      (item.weight ≠ 0 →
        calculate_policy CachePolicy.GDSF item cache_age
          = some (item.hits / item.weight + cache_age)) ∧
      (item.weight = 0 → calculate_policy CachePolicy.GDSF item cache_age = none) := by
  intro item cache_age
  refine ⟨rfl, rfl, ?_, ?_⟩ <;> intro h <;> simp [calculate_policy, h]

/-- Witness for `C8_policy_total_except_zero_weight` at a weight-2, 7-hit
item and cache age 5. -/
theorem C8_witness :
    calculate_policy CachePolicy.GDSF
      ({ value := 0, weight := 2, hits := 7, priority_key := 0,
         creation_time := none, ttl := none } : Item Nat) 5 = some 8 := by
  have h := (C8_policy_total_except_zero_weight
    ⟨0, 2, 7, 0, none, none⟩ 5).2.2.1 (by decide)
  simpa using h

/-- Claim C9.  For every key present and not expired whose recomputed score
is defined, `get` increases its hit count by exactly 1 and stores the score
recomputed by the active policy, returning the stored value; `peek` leaves
every surviving entry — hit count, priority score and bucket membership —
exactly as it was. -/
theorem C9_promotion_law :
    (∀ (s : Cache Nat Nat) (k now : Nat) (item : Item Nat) (p : Nat),
       alookup k s.elements = some item →
       isExpired item now = false →
       calculate_policy s.policy { item with hits := item.hits + 1 } s.age = some p →
       (get s k now).map Prod.fst = some (some item.value) ∧
       ∀ r s2, get s k now = some (r, s2) →
         alookup k s2.elements
           = some { item with hits := item.hits + 1, priority_key := p }) ∧
    (∀ (s : Cache Nat Nat) (k now k' : Nat) (it' : Item Nat),
       alookup k' (peek s k now).2.elements = some it' →
       alookup k' s.elements = some it' ∧
       ∀ q, keyInBucket (peek s k now).2 q k' = keyInBucket s q k') := by
  constructor
  · intro s k now item p h hx hc
    have hg := get_hit h hx hc
    constructor
    · rw [hg]
      rfl
    · intro r s2 hg2
      rw [hg] at hg2
      cases hg2
      exact alookup_aupsert_self k _ s.elements
  · intro s k now k' it' h
    have hstate : (peek s k now).2 = (check_ttl s k now).2 := rfl
    cases he : alookup k s.elements with
    | none =>
        have hct : check_ttl s k now = (none, s) := check_ttl_of_none he
        refine ⟨?_, ?_⟩
        · rw [hstate, hct] at h
          exact h
        · intro q
          rw [hstate, hct]
    | some item =>
        cases hx : isExpired item now with
        | false =>
            have hct : check_ttl s k now = (none, s) := check_ttl_not_expired he hx
            refine ⟨?_, ?_⟩
            · rw [hstate, hct] at h
              exact h
            · intro q
              rw [hstate, hct]
        | true =>
            have hct := check_ttl_expired he hx
            have hk : k' ≠ k := by
              intro hkk
              subst hkk
              rw [hstate, hct] at h
              rw [show ({ s with
                  frequencies := freq_remove_entry s.frequencies item.priority_key k'
                  elements := aerase k' s.elements } : Cache Nat Nat).elements
                  = aerase k' s.elements from rfl, alookup_aerase_self] at h
              cases h
            refine ⟨?_, ?_⟩
            · rw [hstate, hct] at h
              rwa [show ({ s with
                  frequencies := freq_remove_entry s.frequencies item.priority_key k
                  elements := aerase k s.elements } : Cache Nat Nat).elements
                  = aerase k s.elements from rfl, alookup_aerase_ne hk] at h
            · intro q
              rw [hstate, hct]
              exact inFreqs_freq_remove_ne hk s.frequencies item.priority_key q

/-- Witness for `C9_promotion_law`: `get` on the single entry of
`oneEntryLFU` bumps its hits from 1 to 2 and its score to 2, and `peek`
leaves the entry and its bucket membership unchanged. -/
theorem C9_witness :
    (get oneEntryLFU 0 0).map Prod.fst = some (some 0) ∧
    alookup 0 c2_s2.elements = some ⟨0, 1, 2, 2, none, none⟩ ∧
    alookup 0 oneEntryLFU.elements = some ⟨0, 1, 1, 1, none, none⟩ ∧
    keyInBucket (peek oneEntryLFU 0 0).2 1 0 = keyInBucket oneEntryLFU 1 0 := by
  have hmain := C9_promotion_law
  have hget := hmain.1 oneEntryLFU 0 0 ⟨0, 1, 1, 1, none, none⟩ 2
    (by decide) (by decide) (by decide)
  have hpeek := hmain.2 oneEntryLFU 0 0 0 ⟨0, 1, 1, 1, none, none⟩ (by decide)
  exact ⟨hget.1, hget.2 (some 0) c2_s2 (by decide), hpeek.1, hpeek.2 1⟩

/-- Claim C10.  Both clear operations empty the entry table and the bucket
index and zero `cur_size` and `age`, while `min_frequency`, `capacity`,
`max_size`, `policy` and the eviction-callback configuration keep their
pre-clear values; in particular `min_frequency` is not reset to the
freshly-built value 0, as the concrete state `c2_s2` (whose `min_frequency`
is 1) shows. -/
theorem C10_clear_frame :
    (∀ s : Cache Nat Nat,
      (clear_without_eviction s).elements = [] ∧
      (clear_without_eviction s).frequencies = [] ∧
      (clear_without_eviction s).cur_size = 0 ∧
      (clear_without_eviction s).age = 0 ∧
      (clear_without_eviction s).min_frequency = s.min_frequency ∧
      (clear_without_eviction s).capacity = s.capacity ∧
      (clear_without_eviction s).max_size = s.max_size ∧
      (clear_without_eviction s).policy = s.policy ∧
      (clear_without_eviction s).hasOnEviction = s.hasOnEviction ∧
      (clear_with_eviction s).elements = [] ∧
      (clear_with_eviction s).frequencies = [] ∧
      (clear_with_eviction s).cur_size = 0 ∧
      (clear_with_eviction s).age = 0 ∧
      (clear_with_eviction s).min_frequency = s.min_frequency ∧
      (clear_with_eviction s).capacity = s.capacity ∧
      (clear_with_eviction s).max_size = s.max_size ∧
      (clear_with_eviction s).policy = s.policy ∧
      (clear_with_eviction s).hasOnEviction = s.hasOnEviction) ∧
    (clear_without_eviction c2_s2).min_frequency = 1 ∧
    (build CachePolicy.LFU none none false : Cache Nat Nat).min_frequency = 0 := by
  refine ⟨?_, by decide, by decide⟩
  intro s
  simp [clear_without_eviction, clear_with_eviction]

/-- Claim C7.  With `max_entry_count = N`, after any sequence of `insert`
calls — any mix of keys, values, weights, ttls and clock readings — in which
every call returns, `len()` is at most `N`. -/
theorem C7_capacity_law :
    ∀ (N : Nat) (pol : CachePolicy) (msize : Option Nat) (hasEv : Bool)
      (ops : List (Nat × Nat × Nat × Option Nat × Nat)) (s' : Cache Nat Nat),
      runInserts (build pol (some N) msize hasEv) ops = some s' →
      len s' ≤ N := by
  intro N pol msize hasEv ops s' h
  have := runInserts_le ops (build pol (some N) msize hasEv) s' rfl (by simp [build]) h
  simpa [len] using this

/-- Witness for `C7_capacity_law`: two inserts on a capacity-1 LFU cache
(the second one evicts the first) end with one entry. -/
theorem C7_witness : len c7_res ≤ 1 :=
  C7_capacity_law 1 CachePolicy.LFU none false c7_ops c7_res (by decide)

end Lfuda
